import Mathlib

/-!
Verification development for the asset minification utility in
src/bin/minify_assets.py.  The Python module is embedded shallowly: the
file system is a partial map from path strings to file contents, the
external minifier libraries are opaque text transforms, glob expansion
is an abstract function of the file system, and the floating point
arithmetic used for the compression percentage is modelled exactly by
rounding rationals to a 53-bit significand.
-/

/-- A JSON-derived Python value stored inside an options record. -/
inductive PyVal where
  | bool (b : Bool)
  | int (n : ℤ)
  | str (s : String)
  | null
deriving DecidableEq

/-- Python truthiness of the values above, as used by the test
if not in_place inside Minifier._execute. -/
def PyVal.truthy : PyVal → Bool
  | .bool b => b
  | .int n => decide (n ≠ 0)
  | .str s => decide (s ≠ "")
  | .null => false

/-- An options record: the JSON object attached to a glob pattern. -/
abbrev Settings := List (String × PyVal)

/-- The file system: the regular files, with their text contents.  A path
that maps to none is missing or is not a regular file. -/
abbrev FS := String → Option String

/-- Overwriting write of a single file, the effect of the final
open-for-writing block of Minifier._execute. -/
def fsWrite (fs : FS) (target content : String) : FS :=
  fun p => if p = target then some content else fs p

/-- Suffix test on character lists, the semantics of Python str.endswith. -/
def endsWithL (l suffL : List Char) : Bool :=
  suffL == l.drop (l.length - suffL.length)

/-- Python str.endswith, used by the guard at line 72 and, through the
anchored pattern, by re.sub at line 95. -/
def pyEndsWith (s suffix : String) : Bool :=
  endsWithL s.data suffix.data

/-- The characters of a list strictly after the last occurrence of c, or
the whole list when c does not occur: the common core of os.path.basename
(with the slash) and of str.rsplit with one separator (with the dot). -/
def afterLast (c : Char) (l : List Char) : List Char :=
  (l.reverse.takeWhile fun x => x != c).reverse

/-- os.path.basename: the part of the path after the last slash. -/
def basename (path : String) : String :=
  String.mk (afterLast '/' path.data)

/-- Python membership of a single character in a string. -/
def containsChar (s : String) (c : Char) : Bool :=
  s.data.any fun x => x == c

/-- Nearest integer to a rational with ties to even, the rounding of
IEEE-754 binary64 arithmetic.  The parity test is written with an integer
remainder so that the function is executable by decide. -/
def roundHalfEven (x : ℚ) : ℤ :=
  if Int.fract x < 1 / 2 then ⌊x⌋
  else if 1 / 2 < Int.fract x then ⌊x⌋ + 1
  else if ⌊x⌋ % 2 = 0 then ⌊x⌋ else ⌊x⌋ + 1

/-- Rounding a positive rational to the nearest IEEE-754 binary64 value
(53-bit significand, round to nearest, ties to even).  The exponent is
left unbounded, which agrees with binary64 on every magnitude reachable
from Python string lengths; nonpositive inputs map to zero and do not
occur in the embedded code. -/
def floatRound (q : ℚ) : ℚ :=
  if q ≤ 0 then 0
  else
    (roundHalfEven (q * (2 : ℚ) ^ ((52 : ℤ) - Int.log 2 q)) : ℚ) *
      (2 : ℚ) ^ (Int.log 2 q - (52 : ℤ))

/-- Python true division of two nonnegative machine integers: the exact
rational quotient, correctly rounded to binary64. -/
def pyDiv (a b : ℕ) : ℚ := floatRound ((a : ℚ) / (b : ℚ))

/-- Python int() on a finite float: truncation toward zero. -/
def pyInt (q : ℚ) : ℤ := if q < 0 then -⌊-q⌋ else ⌊q⌋

/-- The integer tenths value computed at line 97 of Minifier._execute,
namely int(1000 * len(minified) / len(content)).  The trailing division
by 10.0 and the float formatting of the log line are display only, so the
log record below stores this integer. -/
def percentTimes10 (contentLen minifiedLen : ℕ) : ℤ :=
  pyInt (pyDiv (1000 * minifiedLen) contentLen)

/-- The external minification libraries rjsmin, rcssmin and htmlmin,
treated as opaque text transforms. -/
structure ExtTransforms where
  jsmin : String → String
  cssmin : String → String
  htmlminMinify : String → Bool → Bool → String

/-- The module level helper _htmlmin: htmlmin.minify with remove_comments
and remove_empty_space switched on. -/
def _htmlmin (M : ExtTransforms) (content : String) : String :=
  M.htmlminMinify content true true

/-- The static handler registry of class Minifier. -/
def Minifier.handlers (M : ExtTransforms) : List (String × (String → String)) :=
  [("js", M.jsmin), ("css", M.cssmin), ("html", _htmlmin M), ("jinja2", _htmlmin M)]

/-- handlers.get applied to an optional extension; a missing extension
(Python None) finds no entry. -/
def Minifier.handlersGet (M : ExtTransforms) : Option String → Option (String → String)
  | none => none
  | some e => (Minifier.handlers M).lookup e

/-- Minifier._ext: None unless the path is a regular file whose base name
contains a dot, otherwise the substring after the last dot of the base
name. -/
def Minifier._ext (fs : FS) (filename : String) : Option String :=
  match fs filename with
  | none => none
  | some _ =>
    let base := basename filename
    if containsChar base '.' then some (String.mk (afterLast '.' base.data))
    else none

/-- The text interpolated for the extension inside the guard string:
Python formats the value None as the four letter string None. -/
def extText : Option String → String
  | none => "None"
  | some e => e

/-- Glob expansion is delegated to the runtime library; it reads only the
directory structure, so it is modelled as an abstract function of the
file system. -/
abbrev Globber := FS → String → List String

/-- Minifier._find_files: expand every pattern in order and yield each
eligible file with its handler and the settings of that pattern. -/
def Minifier._find_files (M : ExtTransforms) (globber : Globber) (fs : FS)
    (instructions : List (String × Settings)) :
    List (String × (String → String) × Settings) :=
  instructions.flatMap fun ps =>
    (globber fs ps.1).filterMap fun filename =>
      let ext := Minifier._ext fs filename
      if pyEndsWith filename (".min." ++ extText ext) then none
      else
        match Minifier.handlersGet M ext with
        | none => none
        | some handler => some (filename, handler, ps.2)

/-- The list level substitution behind re.sub at line 95: rewrite one
trailing dot-extension occurrence into dot min dot extension.  The dollar
anchor of the pattern also matches just before one final newline, hence
the second branch; the extension never contains regex metacharacters for
any key of the registry. -/
def reSubMinExtData (extL pathL : List Char) : List Char :=
  if endsWithL pathL ('.' :: extL) then
    pathL.take (pathL.length - (extL.length + 1)) ++
      ('.' :: 'm' :: 'i' :: 'n' :: '.' :: extL)
  else if endsWithL pathL ('.' :: extL ++ ['\n']) then
    pathL.take (pathL.length - (extL.length + 2)) ++
      ('.' :: 'm' :: 'i' :: 'n' :: '.' :: extL) ++ ['\n']
  else pathL

/-- re.sub of the anchored trailing extension, on strings. -/
def reSubMinExt (ext path : String) : String :=
  String.mk (reSubMinExtData ext.data path.data)

/-- The output path computation of Minifier._execute at lines 92 to 95:
the source path itself when in_place is truthy, otherwise the derived
path with min inserted before the extension. -/
def Minifier.targetPath (fs : FS) (path : String) (in_place : PyVal) : String :=
  if in_place.truthy then path
  else reSubMinExt (extText (Minifier._ext fs path)) path

/-- The Python exceptions reachable in the embedded fragment. -/
inductive PyError where
  | typeError (msg : String)
  | fileNotFound (path : String)
deriving DecidableEq

/-- One console report of Minifier._execute: either the NOO diagnostic for
an empty source file, or the success report carrying source, target, both
lengths and the integer tenths of the compression percentage. -/
inductive LogLine where
  | emptyFile (path : String)
  | processed (path target : String) (srcLen minLen : ℕ) (tenths : ℤ)
deriving DecidableEq

/-- The source path a log line refers to. -/
def LogLine.path : LogLine → String
  | .emptyFile p => p
  | .processed p _ _ _ _ => p

/-- Minifier._execute: read the file, short circuit on empty content,
minify, compute the target path, report, and write. -/
def Minifier._execute (fs : FS) (path : String) (handler : String → String)
    (in_place : PyVal) : Except PyError (FS × List LogLine) :=
  match fs path with
  | none => .error (.fileNotFound path)
  | some content =>
    if content = "" then .ok (fs, [.emptyFile path])
    else
      let minified := handler content
      let target := Minifier.targetPath fs path in_place
      .ok (fsWrite fs target minified,
        [.processed path target content.length minified.length
          (percentTimes10 content.length minified.length)])

/-- The call cls._execute(path, handler, **settings): keyword binding
fails with a TypeError when the record holds any key other than in_place,
and otherwise in_place defaults to False. -/
def Minifier.callExecuteKw (fs : FS) (path : String) (handler : String → String)
    (settings : Settings) : Except PyError (FS × List LogLine) :=
  if settings.any fun kv => kv.1 != "in_place" then
    .error (.typeError "unexpected keyword argument")
  else
    Minifier._execute fs path handler
      ((settings.lookup "in_place").getD (PyVal.bool false))

/-- Assignment into a Python dict: an existing key keeps its position and
receives the new value, a new key is appended at the end. -/
def dictInsert {α : Type} (k : String) (v : α) :
    List (String × α) → List (String × α)
  | [] => [(k, v)]
  | (k', v') :: rest =>
    if k' = k then (k, v) :: rest else (k', v') :: dictInsert k v rest

/-- The tasks dict built by the first loop of Minifier.minify, so that the
settings seen last for a path override the earlier ones. -/
def buildTasks (found : List (String × (String → String) × Settings)) :
    List (String × (String → String) × Settings) :=
  found.foldl (fun acc t => dictInsert t.1 t.2 acc) []

/-- The second loop of Minifier.minify, threading the file system and
accumulating the log; the first exception aborts the run. -/
def runTasks (fs : FS) (acc : List LogLine) :
    List (String × (String → String) × Settings) → Except PyError (FS × List LogLine)
  | [] => .ok (fs, acc)
  | t :: rest =>
    match Minifier.callExecuteKw fs t.1 t.2.1 t.2.2 with
    | .error e => .error e
    | .ok (fs', lines) => runTasks fs' (acc ++ lines) rest

/-- Minifier.minify: materialize the task dict from the initial file
system, then execute every task in order. -/
def Minifier.minify (M : ExtTransforms) (globber : Globber) (fs : FS)
    (instructions : List (String × Settings)) : Except PyError (FS × List LogLine) :=
  runTasks fs [] (buildTasks (Minifier._find_files M globber fs instructions))

/-! ### Concrete fixtures for witnesses -/

/-- Concrete opaque transforms used by the witness scenarios. -/
def M0 : ExtTransforms :=
  ⟨fun s => "J" ++ s, fun s => "C" ++ s, fun s _ _ => "H" ++ s⟩

/-- A file system holding one css file with content x. -/
def fs0 : FS := fun p => if p = "a.css" then some "x" else none

/-- A globber whose every pattern matches the single test file. -/
def glob0 : Globber := fun _ _ => ["a.css"]

/-- A file system holding one file with no extension. -/
def fsMake : FS := fun p => if p = "Makefile" then some "x" else none

/-- A file system holding one already minified file. -/
def fsMin : FS := fun p => if p = "a.min.css" then some "y" else none

/-- A file system holding one empty css file. -/
def fsEmpty : FS := fun p => if p = "e.css" then some "" else none

/-- A globber that inspects a file created only by a run itself; it
agrees with glob0 on fs0. -/
def globProbe : Globber := fun f _ =>
  if f "a.min.css" = some "Cx" then ["a.min.css"] else ["a.css"]

/-! ### The binary64 rounding model -/

theorem roundHalfEven_sub_le (x : ℚ) : |(roundHalfEven x : ℚ) - x| ≤ 1 / 2 := by
  have h0 : 0 ≤ Int.fract x := Int.fract_nonneg x
  have h1 : Int.fract x < 1 := Int.fract_lt_one x
  have hF : x - (⌊x⌋ : ℚ) = Int.fract x := Int.self_sub_floor x
  unfold roundHalfEven
  split_ifs with ha hb hc
  · rw [abs_le]; constructor <;> linarith
  · rw [abs_le]; push_cast; constructor <;> linarith
  · rw [not_lt] at ha hb; rw [abs_le]; constructor <;> linarith
  · rw [not_lt] at ha hb; rw [abs_le]; push_cast; constructor <;> linarith

theorem roundHalfEven_intCast (z : ℤ) : roundHalfEven (z : ℚ) = z := by
  unfold roundHalfEven
  rw [Int.fract_intCast, Int.floor_intCast]
  norm_num

theorem floatRound_of_pos (q : ℚ) (hq : 0 < q) :
    floatRound q =
      (roundHalfEven (q * (2 : ℚ) ^ ((52 : ℤ) - Int.log 2 q)) : ℚ) *
        (2 : ℚ) ^ (Int.log 2 q - (52 : ℤ)) := by
  rw [floatRound, if_neg (not_le.mpr hq)]

theorem floatRound_err (q : ℚ) (hq : 0 < q) :
    |floatRound q - q| ≤ (2 : ℚ) ^ (Int.log 2 q - 53) := by
  have h2 : (2 : ℚ) ≠ 0 := two_ne_zero
  have hpow : (0 : ℚ) < (2 : ℚ) ^ (Int.log 2 q - (52 : ℤ)) := zpow_pos (by norm_num) _
  have hqx : q * (2 : ℚ) ^ ((52 : ℤ) - Int.log 2 q) * (2 : ℚ) ^ (Int.log 2 q - (52 : ℤ)) = q := by
    rw [mul_assoc, ← zpow_add₀ h2]
    norm_num
  rw [floatRound_of_pos q hq]
  have hrw : (roundHalfEven (q * (2 : ℚ) ^ ((52 : ℤ) - Int.log 2 q)) : ℚ) *
        (2 : ℚ) ^ (Int.log 2 q - (52 : ℤ)) - q =
      ((roundHalfEven (q * (2 : ℚ) ^ ((52 : ℤ) - Int.log 2 q)) : ℚ) -
        q * (2 : ℚ) ^ ((52 : ℤ) - Int.log 2 q)) * (2 : ℚ) ^ (Int.log 2 q - (52 : ℤ)) := by
    rw [sub_mul, hqx]
  rw [hrw, abs_mul, abs_of_pos hpow]
  calc |(roundHalfEven (q * (2 : ℚ) ^ ((52 : ℤ) - Int.log 2 q)) : ℚ) -
          q * (2 : ℚ) ^ ((52 : ℤ) - Int.log 2 q)| * (2 : ℚ) ^ (Int.log 2 q - (52 : ℤ))
      ≤ (1 / 2) * (2 : ℚ) ^ (Int.log 2 q - (52 : ℤ)) :=
        mul_le_mul_of_nonneg_right (roundHalfEven_sub_le _) hpow.le
    _ = (2 : ℚ) ^ (Int.log 2 q - 53) := by
        rw [show Int.log 2 q - 53 = (-1) + (Int.log 2 q - 52) by ring, zpow_add₀ h2]
        norm_num

theorem floatRound_exact (q : ℚ) (hq : 0 < q) (z : ℤ)
    (hz : (z : ℚ) = q * (2 : ℚ) ^ ((52 : ℤ) - Int.log 2 q)) : floatRound q = q := by
  rw [floatRound_of_pos q hq, ← hz, roundHalfEven_intCast, hz, mul_assoc,
    ← zpow_add₀ (two_ne_zero : (2 : ℚ) ≠ 0)]
  norm_num

theorem int_log2_eq (q : ℚ) (e : ℤ) (hq : 0 < q) (h1 : (2 : ℚ) ^ e ≤ q)
    (h2 : q < (2 : ℚ) ^ (e + 1)) : Int.log 2 q = e := by
  have ha : e ≤ Int.log 2 q :=
    (Int.zpow_le_iff_le_log one_lt_two hq).mp (by exact_mod_cast h1)
  have hb : Int.log 2 q < e + 1 :=
    (Int.lt_zpow_iff_log_lt one_lt_two hq).mp (by exact_mod_cast h2)
  omega

theorem pyInt_of_nonneg (q : ℚ) (h : 0 ≤ q) : pyInt q = ⌊q⌋ := by
  rw [pyInt, if_neg (not_lt.mpr h)]

theorem pyDiv_floor (a b : ℕ) (hb : 0 < b) (ha : a < 2 ^ 53) :
    pyInt (pyDiv a b) = ⌊(a : ℚ) / (b : ℚ)⌋ := by
  rcases Nat.eq_zero_or_pos a with ha0 | hapos
  · subst ha0
    norm_num [pyDiv, floatRound, pyInt]
  show pyInt (floatRound ((a : ℚ) / (b : ℚ))) = ⌊(a : ℚ) / (b : ℚ)⌋
  set q : ℚ := (a : ℚ) / (b : ℚ) with hqdef
  have hb' : (0 : ℚ) < (b : ℚ) := by exact_mod_cast hb
  have hbq : (b : ℚ) ≠ 0 := hb'.ne'
  have hq : 0 < q := div_pos (by exact_mod_cast hapos) hb'
  have hqb : q * (b : ℚ) = (a : ℚ) := div_mul_cancel₀ _ hbq
  have hqa : q ≤ (a : ℚ) := div_le_self (by positivity) (by exact_mod_cast hb)
  have hq53 : q < (2 : ℚ) ^ (53 : ℤ) := by
    refine lt_of_le_of_lt hqa ?_
    rw [show ((53 : ℤ)) = ((53 : ℕ) : ℤ) by norm_num, zpow_natCast]
    exact_mod_cast ha
  have he1 : (2 : ℚ) ^ Int.log 2 q ≤ q := by
    have := Int.zpow_log_le_self (b := 2) one_lt_two hq
    exact_mod_cast this
  by_cases hint : ∃ z : ℤ, (z : ℚ) = q
  · obtain ⟨z, hz⟩ := hint
    have he52 : Int.log 2 q ≤ 52 := by
      by_contra hcon
      push_neg at hcon
      have h53 : (2 : ℚ) ^ (53 : ℤ) ≤ (2 : ℚ) ^ Int.log 2 q :=
        zpow_le_zpow_right₀ one_le_two (by omega)
      linarith
    have hnn : (0 : ℤ) ≤ 52 - Int.log 2 q := by omega
    have hx : ((z * 2 ^ ((52 - Int.log 2 q).toNat) : ℤ) : ℚ) =
        q * (2 : ℚ) ^ ((52 : ℤ) - Int.log 2 q) := by
      push_cast
      rw [hz]
      congr 1
      rw [← zpow_natCast (2 : ℚ), Int.toNat_of_nonneg hnn]
    rw [floatRound_exact q hq _ hx, pyInt_of_nonneg q hq.le]
  · have hk0 : (0 : ℤ) ≤ ⌊q⌋ := Int.floor_nonneg.mpr hq.le
    have hkq : ((⌊q⌋ : ℤ) : ℚ) < q :=
      lt_of_le_of_ne (Int.floor_le q) fun h => hint ⟨⌊q⌋, h⟩
    have hq1 : q < (⌊q⌋ : ℚ) + 1 := Int.lt_floor_add_one q
    have hZ1 : ⌊q⌋ * (b : ℤ) + 1 ≤ (a : ℤ) := by
      refine Int.lt_iff_add_one_le.mp ?_
      have h' : ((⌊q⌋ : ℚ)) * (b : ℚ) < (a : ℚ) := by
        calc (⌊q⌋ : ℚ) * (b : ℚ) < q * (b : ℚ) := mul_lt_mul_of_pos_right hkq hb'
          _ = (a : ℚ) := hqb
      exact_mod_cast h'
    have hZ2 : (a : ℤ) + 1 ≤ (⌊q⌋ + 1) * (b : ℤ) := by
      refine Int.lt_iff_add_one_le.mp ?_
      have h' : (a : ℚ) < ((⌊q⌋ : ℚ) + 1) * (b : ℚ) := by
        calc (a : ℚ) = q * (b : ℚ) := hqb.symm
          _ < ((⌊q⌋ : ℚ) + 1) * (b : ℚ) := mul_lt_mul_of_pos_right hq1 hb'
      exact_mod_cast h'
    have hbb : (1 : ℚ) / (b : ℚ) * (b : ℚ) = 1 := by field_simp
    have hlow : (⌊q⌋ : ℚ) + 1 / (b : ℚ) ≤ q := by
      rw [hqdef, le_div_iff₀ hb']
      have h' : ((⌊q⌋ : ℚ)) * (b : ℚ) + 1 ≤ (a : ℚ) := by exact_mod_cast hZ1
      calc ((⌊q⌋ : ℚ) + 1 / (b : ℚ)) * (b : ℚ)
          = (⌊q⌋ : ℚ) * (b : ℚ) + 1 / (b : ℚ) * (b : ℚ) := by ring
        _ = (⌊q⌋ : ℚ) * (b : ℚ) + 1 := by rw [hbb]
        _ ≤ (a : ℚ) := h'
    have hhigh : q ≤ (⌊q⌋ : ℚ) + 1 - 1 / (b : ℚ) := by
      rw [hqdef, div_le_iff₀ hb']
      have h' : (a : ℚ) ≤ ((⌊q⌋ : ℚ) + 1) * (b : ℚ) - 1 := by
        have h'' : ((a + 1 : ℤ) : ℚ) ≤ (((⌊q⌋ + 1) * b : ℤ) : ℚ) := by exact_mod_cast hZ2
        push_cast at h''
        linarith
      calc (a : ℚ) ≤ ((⌊q⌋ : ℚ) + 1) * (b : ℚ) - 1 := h'
        _ = ((⌊q⌋ : ℚ) + 1 - 1 / (b : ℚ)) * (b : ℚ) := by
            rw [show ((⌊q⌋ : ℚ) + 1 - 1 / (b : ℚ)) * (b : ℚ) =
              ((⌊q⌋ : ℚ) + 1) * (b : ℚ) - 1 / (b : ℚ) * (b : ℚ) from by ring, hbb]
    have habs := abs_le.mp (floatRound_err q hq)
    have hsb : (2 : ℚ) ^ (Int.log 2 q - 53) < 1 / (b : ℚ) := by
      have hsb1 : (b : ℚ) * (2 : ℚ) ^ Int.log 2 q ≤ (a : ℚ) := by
        calc (b : ℚ) * (2 : ℚ) ^ Int.log 2 q ≤ (b : ℚ) * q :=
              mul_le_mul_of_nonneg_left he1 hb'.le
          _ = (a : ℚ) := by rw [mul_comm]; exact hqb
      have hsb2 : (b : ℚ) * (2 : ℚ) ^ Int.log 2 q < (2 : ℚ) ^ (53 : ℤ) := by
        refine lt_of_le_of_lt hsb1 ?_
        rw [show ((53 : ℤ)) = ((53 : ℕ) : ℤ) by norm_num, zpow_natCast]
        exact_mod_cast ha
      rw [lt_div_iff₀ hb']
      have hexp : (2 : ℚ) ^ (Int.log 2 q - 53) =
          (2 : ℚ) ^ Int.log 2 q * (2 : ℚ) ^ (-53 : ℤ) := by
        rw [← zpow_add₀ (two_ne_zero : (2 : ℚ) ≠ 0)]
        ring_nf
      rw [hexp]
      have hp53 : (0 : ℚ) < (2 : ℚ) ^ (-53 : ℤ) := zpow_pos (by norm_num) _
      calc (2 : ℚ) ^ Int.log 2 q * (2 : ℚ) ^ (-53 : ℤ) * (b : ℚ)
          = ((b : ℚ) * (2 : ℚ) ^ Int.log 2 q) * (2 : ℚ) ^ (-53 : ℤ) := by ring
        _ < (2 : ℚ) ^ (53 : ℤ) * (2 : ℚ) ^ (-53 : ℤ) :=
            mul_lt_mul_of_pos_right hsb2 hp53
        _ = 1 := by
            rw [← zpow_add₀ (two_ne_zero : (2 : ℚ) ≠ 0)]
            norm_num
    have hflo : (⌊q⌋ : ℚ) < floatRound q := by
      have h1 := habs.1
      linarith
    have hfhi : floatRound q < (⌊q⌋ : ℚ) + 1 := by
      have h2 := habs.2
      linarith
    have hfof : ⌊floatRound q⌋ = ⌊q⌋ :=
      Int.floor_eq_iff.mpr ⟨hflo.le, by linarith⟩
    have hknn : (0 : ℚ) ≤ (⌊q⌋ : ℚ) := by exact_mod_cast hk0
    rw [pyInt_of_nonneg _ (le_trans hknn hflo.le), hfof]

theorem roundHalfEven_up (x : ℚ) (n : ℤ) (h1 : (n : ℚ) ≤ x) (h2 : x < (n : ℚ) + 1)
    (h3 : 1 / 2 < x - (n : ℚ)) : roundHalfEven x = n + 1 := by
  have hfl : ⌊x⌋ = n := Int.floor_eq_iff.mpr ⟨h1, h2⟩
  have hfr : Int.fract x = x - (n : ℚ) := by
    rw [← Int.self_sub_floor, hfl]
  rw [roundHalfEven, hfr, if_neg (by linarith), if_pos h3, hfl]

/-- Claim C3, counterexample: at source length 18014398509482001 and
minified length 18014398509482 the code reports tenths value 1 (0.1
percent), while exact rational truncation gives 0 (0.0 percent): the
binary64 quotient of Python division rounds up to 1.0 there. -/
theorem percentTimes10_cex :
    percentTimes10 18014398509482001 18014398509482 = 1 ∧
      ⌊(1000 * (18014398509482 : ℚ)) / (18014398509482001 : ℚ)⌋ = 0 := by
  have hq0 : ((1000 * 18014398509482 : ℕ) : ℚ) / ((18014398509482001 : ℕ) : ℚ) =
      (18014398509482000 : ℚ) / (18014398509482001 : ℚ) := by
    norm_num
  constructor
  · show pyInt (pyDiv (1000 * 18014398509482) 18014398509482001) = 1
    rw [pyDiv, hq0]
    set q : ℚ := (18014398509482000 : ℚ) / (18014398509482001 : ℚ) with hqdef
    have hq : 0 < q := by rw [hqdef]; positivity
    have hlog : Int.log 2 q = -1 := by
      refine int_log2_eq q (-1) hq ?_ ?_
      · rw [hqdef]
        rw [show ((-1 : ℤ)) = -((1 : ℕ) : ℤ) by norm_num, zpow_neg, zpow_natCast,
          le_div_iff₀ (by norm_num : (0 : ℚ) < 18014398509482001)]
        norm_num
      · rw [hqdef]
        norm_num
    have hfr := floatRound_of_pos q hq
    rw [hlog, show ((52 : ℤ) - (-1)) = 53 by norm_num,
      show ((-1 : ℤ) - 52) = -53 by norm_num] at hfr
    have hp53 : (2 : ℚ) ^ (53 : ℤ) = 9007199254740992 := by
      rw [show ((53 : ℤ)) = ((53 : ℕ) : ℤ) by norm_num, zpow_natCast]
      norm_num
    have hX : q * (2 : ℚ) ^ (53 : ℤ) =
        (18014398509482000 * 9007199254740992 : ℚ) / 18014398509482001 := by
      rw [hqdef, hp53, div_mul_eq_mul_div]
    have hXlo : ((9007199254740991 : ℤ) : ℚ) ≤ q * (2 : ℚ) ^ (53 : ℤ) := by
      rw [hX, le_div_iff₀ (by norm_num : (0 : ℚ) < 18014398509482001)]
      norm_num
    have hXhi : q * (2 : ℚ) ^ (53 : ℤ) < ((9007199254740991 : ℤ) : ℚ) + 1 := by
      rw [hX, div_lt_iff₀ (by norm_num : (0 : ℚ) < 18014398509482001)]
      norm_num
    have hXfr : 1 / 2 < q * (2 : ℚ) ^ (53 : ℤ) - ((9007199254740991 : ℤ) : ℚ) := by
      rw [hX, lt_sub_iff_add_lt,
        lt_div_iff₀ (by norm_num : (0 : ℚ) < 18014398509482001)]
      push_cast
      norm_num
    have hrhe := roundHalfEven_up (q * (2 : ℚ) ^ (53 : ℤ)) 9007199254740991 hXlo hXhi hXfr
    rw [hrhe] at hfr
    have hone : ((9007199254740991 + 1 : ℤ) : ℚ) * (2 : ℚ) ^ (-53 : ℤ) = 1 := by
      rw [show ((-53 : ℤ)) = -((53 : ℕ) : ℤ) by norm_num, zpow_neg, zpow_natCast]
      norm_num
    rw [hone] at hfr
    rw [hfr, pyInt_of_nonneg 1 (by norm_num)]
    norm_num
  · rw [Int.floor_eq_iff]
    constructor
    · positivity
    · rw [div_lt_iff₀ (by norm_num : (0 : ℚ) < 18014398509482001)]
      norm_num

/-- Claim C3 (amended): for every source length s greater than zero and
minified length m with 1000 * m below 2 to the 53, the reported tenths
value int(1000 * m / s) equals the exact rational floor of 1000 * m / s
(truncation on the tenths digit, never rounding); the bound covers every
realistic file, and the counterexample above shows the unrestricted
statement is false for the binary64 division the code performs. -/
theorem percentTimes10_eq_floor (s m : ℕ) (hs : 0 < s) (hm : 1000 * m < 2 ^ 53) :
    percentTimes10 s m = ⌊(1000 * (m : ℚ)) / (s : ℚ)⌋ := by
  have h := pyDiv_floor (1000 * m) s hs hm
  show pyInt (pyDiv (1000 * m) s) = _
  rw [h]
  congr 1
  push_cast
  ring

/-- Witness for the amended claim C3, at the second example of the spec:
source length 3 and minified length 2 report 666 tenths, that is 66.6. -/
theorem percentTimes10_eq_floor_witness :
    0 < 3 ∧ 1000 * 2 < 2 ^ 53 ∧
      percentTimes10 3 2 = ⌊(1000 * (2 : ℚ)) / (3 : ℚ)⌋ :=
  ⟨by norm_num, by norm_num, percentTimes10_eq_floor 3 2 (by norm_num) (by norm_num)⟩

/-! ### Path derivation -/

theorem endsWithL_append (pre suff : List Char) : endsWithL (pre ++ suff) suff = true := by
  unfold endsWithL
  rw [List.length_append, Nat.add_sub_cancel, List.drop_left]
  exact beq_self_eq_true _

theorem reSubMinExtData_append (preL extL : List Char) :
    reSubMinExtData extL (preL ++ '.' :: extL) =
      preL ++ ('.' :: 'm' :: 'i' :: 'n' :: '.' :: extL) := by
  unfold reSubMinExtData
  rw [if_pos (endsWithL_append preL ('.' :: extL))]
  have h2 : (preL ++ '.' :: extL).length - (extL.length + 1) = preL.length := by
    rw [List.length_append, List.length_cons]
    omega
  rw [h2, List.take_left]

theorem reSubMinExt_append (pre e : String) :
    reSubMinExt e (pre ++ "." ++ e) = pre ++ ".min." ++ e := by
  unfold reSubMinExt
  have hd : (pre ++ "." ++ e).data = pre.data ++ '.' :: e.data := by
    rw [String.data_append, String.data_append, List.append_assoc]
    rfl
  have hd2 : (pre ++ ".min." ++ e).data =
      pre.data ++ ('.' :: 'm' :: 'i' :: 'n' :: '.' :: e.data) := by
    rw [String.data_append, String.data_append, List.append_assoc]
    rfl
  rw [hd, reSubMinExtData_append, ← hd2]

/-- Claim C5: for a task on a path of the shape pre dot ext whose detected
extension is that ext, the computed output path is the path with the
trailing dot ext replaced by dot min dot ext when in_place is not set, and
the path itself when in_place is set. -/
theorem targetPath_spec (fs : FS) (pre e : String) (ip : PyVal)
    (hext : Minifier._ext fs (pre ++ "." ++ e) = some e) :
    Minifier.targetPath fs (pre ++ "." ++ e) ip =
      if ip.truthy then pre ++ "." ++ e else pre ++ ".min." ++ e := by
  unfold Minifier.targetPath
  rw [hext]
  by_cases h : ip.truthy
  · rw [if_pos h, if_pos h]
  · rw [if_neg h, if_neg h]
    exact reSubMinExt_append pre e

/-- Witness for claim C5: the css file of fs0, derived path a.min.css. -/
theorem targetPath_spec_witness :
    Minifier._ext fs0 ("a" ++ "." ++ "css") = some "css" ∧
      Minifier.targetPath fs0 ("a" ++ "." ++ "css") (PyVal.bool false) =
        (if (PyVal.bool false).truthy then "a" ++ "." ++ "css"
          else "a" ++ ".min." ++ "css") :=
  ⟨rfl, targetPath_spec fs0 "a" "css" (PyVal.bool false) rfl⟩

/-! ### Resolution guards -/

theorem mem_find_files_inv (M : ExtTransforms) (globber : Globber) (fs : FS)
    (instructions : List (String × Settings)) (path : String)
    (handler : String → String) (settings : Settings)
    (hmem : (path, handler, settings) ∈ Minifier._find_files M globber fs instructions) :
    pyEndsWith path (".min." ++ extText (Minifier._ext fs path)) = false ∧
      Minifier.handlersGet M (Minifier._ext fs path) = some handler := by
  unfold Minifier._find_files at hmem
  rw [List.mem_flatMap] at hmem
  obtain ⟨ps, _hps, hmem2⟩ := hmem
  rw [List.mem_filterMap] at hmem2
  obtain ⟨filename, _hf, heq⟩ := hmem2
  dsimp only at heq
  by_cases hg : pyEndsWith filename (".min." ++ extText (Minifier._ext fs filename)) = true
  · rw [if_pos hg] at heq
    exact absurd heq (by simp)
  · rw [if_neg hg] at heq
    cases hh : Minifier.handlersGet M (Minifier._ext fs filename) with
    | none =>
      rw [hh] at heq
      exact absurd heq (by simp)
    | some h' =>
      rw [hh] at heq
      rw [Option.some.injEq] at heq
      injection heq with e1 e2
      injection e2 with e3 e4
      subst e1
      subst e3
      simp only [Bool.not_eq_true] at hg
      exact ⟨hg, hh⟩

/-- Claim C4: a matched path whose name ends with dot min dot ext, where
ext is its own detected extension, is never yielded as a resolved task by
find_files, for any pattern set and any globber. -/
theorem find_files_skips_minified (M : ExtTransforms) (globber : Globber) (fs : FS)
    (instructions : List (String × Settings)) (path e : String)
    (handler : String → String) (settings : Settings)
    (hext : Minifier._ext fs path = some e)
    (hmin : pyEndsWith path (".min." ++ e) = true) :
    (path, handler, settings) ∉ Minifier._find_files M globber fs instructions := by
  intro hmem
  obtain ⟨hg, _⟩ := mem_find_files_inv M globber fs instructions path handler settings hmem
  rw [hext] at hg
  simp only [extText] at hg
  rw [hmin] at hg
  exact absurd hg (by simp)

/-- Witness for claim C4: the pre-existing a.min.css of fsMin is excluded
even though the glob matches it. -/
theorem find_files_skips_minified_witness :
    Minifier._ext fsMin "a.min.css" = some "css" ∧
      pyEndsWith "a.min.css" (".min." ++ "css") = true ∧
      ("a.min.css", M0.cssmin, ([] : Settings)) ∉
        Minifier._find_files M0 (fun _ _ => ["a.min.css"]) fsMin [("*", [])] :=
  ⟨rfl, rfl,
    find_files_skips_minified M0 (fun _ _ => ["a.min.css"]) fsMin [("*", [])]
      "a.min.css" "css" M0.cssmin [] rfl rfl⟩

/-- Claim C8: a matched path with no dot in its base name, or whose
detected extension has no registry entry, is never yielded as a resolved
task, and resolution raises nothing (find_files is a total function). -/
theorem find_files_skips_unregistered (M : ExtTransforms) (globber : Globber) (fs : FS)
    (instructions : List (String × Settings)) (path : String)
    (handler : String → String) (settings : Settings)
    (hcond : containsChar (basename path) '.' = false ∨
      ∃ e, Minifier._ext fs path = some e ∧ (Minifier.handlers M).lookup e = none) :
    (path, handler, settings) ∉ Minifier._find_files M globber fs instructions := by
  intro hmem
  obtain ⟨_, hh⟩ := mem_find_files_inv M globber fs instructions path handler settings hmem
  have hget : Minifier.handlersGet M (Minifier._ext fs path) = none := by
    rcases hcond with h | ⟨e, he, hl⟩
    · have hx : Minifier._ext fs path = none := by
        unfold Minifier._ext
        cases hfs : fs path with
        | none => rfl
        | some c =>
          dsimp only
          rw [if_neg]
          simp [h]
      rw [hx]
      rfl
    · rw [he]
      simpa only [Minifier.handlersGet] using hl
  rw [hget] at hh
  exact absurd hh (by simp)

/-- Witness for claim C8: Makefile has no extension and is never selected. -/
theorem find_files_skips_unregistered_witness :
    containsChar (basename "Makefile") '.' = false ∧
      ("Makefile", M0.jsmin, ([] : Settings)) ∉
        Minifier._find_files M0 (fun _ _ => ["Makefile"]) fsMake [("*", [])] :=
  ⟨rfl,
    find_files_skips_unregistered M0 (fun _ _ => ["Makefile"]) fsMake [("*", [])]
      "Makefile" M0.jsmin [] (Or.inl rfl)⟩

/-! ### Execution -/

/-- Claim C1: for every non-empty source text T and every transform f
registered for extension e, executing the resolved task on that file
writes exactly f T to the computed destination path, for either value of
in_place. -/
theorem execute_writes_transform (M : ExtTransforms) (fs : FS) (path e T : String)
    (f : String → String) (ip : PyVal)
    (_hext : Minifier._ext fs path = some e)
    (_hreg : (Minifier.handlers M).lookup e = some f)
    (hcontent : fs path = some T) (hT : T ≠ "") :
    ∃ r, Minifier._execute fs path f ip = .ok r ∧
      r.1 (Minifier.targetPath fs path ip) = some (f T) := by
  refine ⟨(fsWrite fs (Minifier.targetPath fs path ip) (f T),
    [.processed path (Minifier.targetPath fs path ip) T.length (f T).length
      (percentTimes10 T.length (f T).length)]), ?_, ?_⟩
  · unfold Minifier._execute
    rw [hcontent]
    dsimp only
    rw [if_neg hT]
  · simp [fsWrite]

/-- Witness for claim C1: the css transform writes C plus x to a.min.css. -/
theorem execute_writes_transform_witness :
    Minifier._ext fs0 "a.css" = some "css" ∧
      (Minifier.handlers M0).lookup "css" = some M0.cssmin ∧
      fs0 "a.css" = some "x" ∧ ("x" : String) ≠ "" ∧
      ∃ r, Minifier._execute fs0 "a.css" M0.cssmin (PyVal.bool false) = .ok r ∧
        r.1 (Minifier.targetPath fs0 "a.css" (PyVal.bool false)) = some (M0.cssmin "x") :=
  ⟨rfl, rfl, rfl, by decide,
    execute_writes_transform M0 fs0 "a.css" "css" "x" M0.cssmin (PyVal.bool false)
      rfl rfl rfl (by decide)⟩

/-- Claim C7: executing a task whose source content is empty performs no
write (the file system is returned unchanged), raises no exception (in
particular no division is evaluated), and emits the NOO diagnostic. -/
theorem execute_empty_skips (fs : FS) (path : String) (handler : String → String)
    (ip : PyVal) (h : fs path = some "") :
    Minifier._execute fs path handler ip = .ok (fs, [LogLine.emptyFile path]) := by
  unfold Minifier._execute
  rw [h]
  dsimp only
  rw [if_pos rfl]

/-- Witness for claim C7: the empty file of fsEmpty is skipped. -/
theorem execute_empty_skips_witness :
    fsEmpty "e.css" = some "" ∧
      Minifier._execute fsEmpty "e.css" M0.cssmin PyVal.null =
        .ok (fsEmpty, [LogLine.emptyFile "e.css"]) :=
  ⟨rfl, execute_empty_skips fsEmpty "e.css" M0.cssmin PyVal.null rfl⟩

theorem percentTimes10_zero (n : ℕ) : percentTimes10 n 0 = 0 := by
  unfold percentTimes10 pyDiv
  have h0 : ((1000 * 0 : ℕ) : ℚ) / (n : ℚ) = 0 := by norm_num
  rw [h0, floatRound, if_pos le_rfl, pyInt_of_nonneg 0 le_rfl, Int.floor_zero]

/-- Claim C10: a non-empty source whose transform returns the empty string
still produces a write of the zero length output at the destination, with
reported tenths value zero: the empty content short circuit tests only the
source content, never the transform output. -/
theorem execute_writes_empty_output (fs : FS) (path T : String)
    (handler : String → String) (ip : PyVal)
    (hcontent : fs path = some T) (hT : T ≠ "") (hmin : handler T = "") :
    Minifier._execute fs path handler ip =
      .ok (fsWrite fs (Minifier.targetPath fs path ip) "",
        [.processed path (Minifier.targetPath fs path ip) T.length 0 0]) := by
  unfold Minifier._execute
  rw [hcontent]
  dsimp only
  rw [if_neg hT]
  rw [hmin]
  have h0 : ("" : String).length = 0 := rfl
  rw [h0, percentTimes10_zero]

/-- Witness for claim C10: a transform collapsing the css file of fs0 to
the empty string still writes a.min.css. -/
theorem execute_writes_empty_output_witness :
    fs0 "a.css" = some "x" ∧ ("x" : String) ≠ "" ∧
      (fun _ : String => "") "x" = "" ∧
      Minifier._execute fs0 "a.css" (fun _ => "") (PyVal.bool false) =
        .ok (fsWrite fs0 (Minifier.targetPath fs0 "a.css" (PyVal.bool false)) "",
          [.processed "a.css" (Minifier.targetPath fs0 "a.css" (PyVal.bool false)) 1 0 0]) :=
  ⟨rfl, by decide, rfl,
    execute_writes_empty_output fs0 "a.css" "x" (fun _ => "") (PyVal.bool false)
      rfl (by decide) rfl⟩

/-- Claim C2, counterexample: with the unrecognized key fo in the options
record the run raises a TypeError, while the same run with an empty
record succeeds; unknown keys are not silently ignored. -/
theorem minify_unknown_key_cex :
    Minifier.minify M0 glob0 fs0 [("*.css", [("fo", PyVal.bool true)])] =
      .error (.typeError "unexpected keyword argument") ∧
      ∃ r, Minifier.minify M0 glob0 fs0 [("*.css", [])] = .ok r :=
  ⟨rfl, ⟨_, rfl⟩⟩

/-- Claim C2 (amended): an options record containing any key other than
in_place makes task execution raise a TypeError at keyword binding, before
the file is read; only records whose every key is in_place execute. -/
theorem callExecuteKw_unknown_key (fs : FS) (path : String)
    (handler : String → String) (settings : Settings)
    (h : ∃ kv ∈ settings, kv.1 ≠ "in_place") :
    Minifier.callExecuteKw fs path handler settings =
      .error (.typeError "unexpected keyword argument") := by
  unfold Minifier.callExecuteKw
  rw [if_pos]
  rw [List.any_eq_true]
  obtain ⟨kv, hmem, hne⟩ := h
  exact ⟨kv, hmem, by simpa using hne⟩

/-- Witness for the amended claim C2: the record with single key fo. -/
theorem callExecuteKw_unknown_key_witness :
    (∃ kv ∈ [("fo", PyVal.bool true)], kv.1 ≠ "in_place") ∧
      Minifier.callExecuteKw fs0 "a.css" M0.cssmin [("fo", PyVal.bool true)] =
        .error (.typeError "unexpected keyword argument") :=
  ⟨⟨("fo", PyVal.bool true), by simp, by decide⟩,
    callExecuteKw_unknown_key fs0 "a.css" M0.cssmin _
      ⟨("fo", PyVal.bool true), by simp, by decide⟩⟩

/-! ### The tasks dict -/

theorem dictInsert_cons_self {α : Type} (k : String) (v v' : α) (tl : List (String × α)) :
    dictInsert k v ((k, v') :: tl) = (k, v) :: tl := by
  show (if k = k then (k, v) :: tl else (k, v') :: dictInsert k v tl) = (k, v) :: tl
  rw [if_pos rfl]

theorem dictInsert_cons_other {α : Type} (k k' : String) (v v' : α)
    (tl : List (String × α)) (h : k' ≠ k) :
    dictInsert k v ((k', v') :: tl) = (k', v') :: dictInsert k v tl := by
  show (if k' = k then (k, v) :: tl else (k', v') :: dictInsert k v tl) =
    (k', v') :: dictInsert k v tl
  rw [if_neg h]

theorem dictInsert_lookup_self {α : Type} (k : String) (v : α) (d : List (String × α)) :
    (dictInsert k v d).lookup k = some v := by
  induction d with
  | nil => simp [dictInsert, List.lookup]
  | cons hd tl ih =>
    obtain ⟨k', v'⟩ := hd
    by_cases h : k' = k
    · subst h
      rw [dictInsert_cons_self]
      simp [List.lookup]
    · have hb : (k == k') = false := by
        simp only [beq_eq_false_iff_ne]
        exact fun hx => h hx.symm
      rw [dictInsert_cons_other k k' v v' tl h]
      simp only [List.lookup, hb]
      exact ih

theorem dictInsert_lookup_other {α : Type} (k p : String) (v : α) (d : List (String × α))
    (h : k ≠ p) : (dictInsert k v d).lookup p = d.lookup p := by
  have hb : (p == k) = false := by
    simp only [beq_eq_false_iff_ne]
    exact fun hx => h hx.symm
  induction d with
  | nil => simp [dictInsert, List.lookup, hb]
  | cons hd tl ih =>
    obtain ⟨k', v'⟩ := hd
    by_cases hk : k' = k
    · subst hk
      rw [dictInsert_cons_self]
      simp only [List.lookup, hb]
    · rw [dictInsert_cons_other k k' v v' tl hk]
      simp only [List.lookup]
      cases hpk : (p == k') with
      | true => rfl
      | false => exact ih

theorem foldl_dictInsert_lookup {α : Type} (l : List (String × α))
    (acc : List (String × α)) (p : String) :
    (l.foldl (fun a t => dictInsert t.1 t.2 a) acc).lookup p =
      (match l.reverse.find? (fun t => t.1 == p) with
        | some t => some t.2
        | none => acc.lookup p) := by
  induction l generalizing acc with
  | nil => simp
  | cons t ts ih =>
    rw [List.foldl_cons, ih (dictInsert t.1 t.2 acc), List.reverse_cons, List.find?_append]
    cases hf : ts.reverse.find? (fun t => t.1 == p) with
    | some u => rfl
    | none =>
      by_cases hp : t.1 = p
      · have hb : ((fun t : String × α => t.1 == p) t) = true := by simp [hp]
        simp only [Option.none_or, List.find?_cons, hb]
        subst hp
        exact dictInsert_lookup_self t.1 t.2 acc
      · have hb : ((fun t : String × α => t.1 == p) t) = false := by simp [hp]
        simp only [Option.none_or, List.find?_cons, hb, List.find?_nil]
        exact dictInsert_lookup_other t.1 p t.2 acc hp

theorem keys_dictInsert {α : Type} (k : String) (v : α) (d : List (String × α)) (x : String) :
    x ∈ (dictInsert k v d).map (fun t => t.1) ↔ x = k ∨ x ∈ d.map fun t => t.1 := by
  induction d with
  | nil => simp [dictInsert]
  | cons hd tl ih =>
    obtain ⟨k', v'⟩ := hd
    by_cases hk : k' = k
    · subst hk
      rw [dictInsert_cons_self]
      simp only [List.map_cons, List.mem_cons]
      tauto
    · rw [dictInsert_cons_other k k' v v' tl hk]
      simp only [List.map_cons, List.mem_cons, ih]
      tauto

theorem dictInsert_keys_nodup {α : Type} (k : String) (v : α) (d : List (String × α))
    (h : (d.map fun t => t.1).Nodup) : ((dictInsert k v d).map fun t => t.1).Nodup := by
  induction d with
  | nil => simp [dictInsert]
  | cons hd tl ih =>
    obtain ⟨k', v'⟩ := hd
    simp only [List.map_cons, List.nodup_cons] at h
    by_cases hk : k' = k
    · subst hk
      rw [dictInsert_cons_self]
      simp only [List.map_cons, List.nodup_cons]
      exact h
    · rw [dictInsert_cons_other k k' v v' tl hk]
      simp only [List.map_cons, List.nodup_cons]
      refine ⟨fun hmem => ?_, ih h.2⟩
      rw [keys_dictInsert] at hmem
      rcases hmem with rfl | hmem
      · exact hk rfl
      · exact h.1 hmem

theorem foldl_dictInsert_nodup {α : Type} (l : List (String × α))
    (acc : List (String × α)) (h : (acc.map fun t => t.1).Nodup) :
    ((l.foldl (fun a t => dictInsert t.1 t.2 a) acc).map fun t => t.1).Nodup := by
  induction l generalizing acc with
  | nil => simpa
  | cons t ts ih => exact ih _ (dictInsert_keys_nodup t.1 t.2 acc h)

/-- Claim C6: in the task dict, a path matched several times holds the
handler and settings of the last yielded match (patterns are expanded in
configuration order, so this is the last matching pattern); the keys of
the dict carry no duplicate, so the path gets exactly one task.  The
third conjunct runs the two pattern scenario of the spec: with in_place
false under the first pattern and true under the second, the single write
is in place and no derived min file appears. -/
theorem tasks_last_wins (M : ExtTransforms) (globber : Globber) (fs : FS)
    (instructions : List (String × Settings)) (p : String) :
    ((buildTasks (Minifier._find_files M globber fs instructions)).lookup p =
      (match (Minifier._find_files M globber fs instructions).reverse.find?
          (fun t => t.1 == p) with
        | some t => some t.2
        | none => none)) ∧
    ((buildTasks (Minifier._find_files M globber fs instructions)).map fun t => t.1).Nodup ∧
    (Minifier.minify M0 glob0 fs0
        [("p1", [("in_place", PyVal.bool false)]), ("p2", [("in_place", PyVal.bool true)])] =
      .ok (fsWrite fs0 "a.css" "Cx",
        [.processed "a.css" "a.css" 1 2 (percentTimes10 1 2)]) ∧
      fsWrite fs0 "a.css" "Cx" "a.min.css" = none) := by
  refine ⟨?_, ?_, rfl, rfl⟩
  · rw [buildTasks, foldl_dictInsert_lookup]
    cases (Minifier._find_files M globber fs instructions).reverse.find?
        (fun t => t.1 == p) with
    | some u => rfl
    | none => rfl
  · exact foldl_dictInsert_nodup _ [] (by simp)

/-! ### Materialization of the task list -/

theorem callExecuteKw_ok_log (fs : FS) (path : String) (handler : String → String)
    (settings : Settings) (fs' : FS) (lines : List LogLine)
    (h : Minifier.callExecuteKw fs path handler settings = .ok (fs', lines)) :
    lines.map LogLine.path = [path] := by
  unfold Minifier.callExecuteKw at h
  split_ifs at h
  unfold Minifier._execute at h
  cases hfs : fs path with
  | none =>
    rw [hfs] at h
    exact absurd h (by simp)
  | some content =>
    rw [hfs] at h
    dsimp only at h
    by_cases hc : content = ""
    · rw [if_pos hc, Except.ok.injEq, Prod.mk.injEq] at h
      rw [← h.2]
      simp [LogLine.path]
    · rw [if_neg hc, Except.ok.injEq, Prod.mk.injEq] at h
      rw [← h.2]
      simp [LogLine.path]

theorem runTasks_ok_paths (tasks : List (String × (String → String) × Settings))
    (fs : FS) (acc : List LogLine) (fs' : FS) (log : List LogLine)
    (h : runTasks fs acc tasks = .ok (fs', log)) :
    log.map LogLine.path = acc.map LogLine.path ++ tasks.map fun t => t.1 := by
  induction tasks generalizing fs acc with
  | nil =>
    unfold runTasks at h
    rw [Except.ok.injEq, Prod.mk.injEq] at h
    rw [← h.2]
    simp
  | cons t ts ih =>
    unfold runTasks at h
    cases hc : Minifier.callExecuteKw fs t.1 t.2.1 t.2.2 with
    | error e =>
      rw [hc] at h
      exact absurd h (by simp)
    | ok r =>
      obtain ⟨fs₁, lines⟩ := r
      rw [hc] at h
      dsimp only at h
      have hrec := ih fs₁ (acc ++ lines) h
      rw [hrec, List.map_append,
        callExecuteKw_ok_log fs t.1 t.2.1 t.2.2 fs₁ lines hc, List.map_cons]
      simp [List.append_assoc]

theorem find_files_glob_congr (M : ExtTransforms) (globber globber' : Globber) (fs : FS)
    (instructions : List (String × Settings))
    (h : ∀ pat, globber fs pat = globber' fs pat) :
    Minifier._find_files M globber fs instructions =
      Minifier._find_files M globber' fs instructions := by
  induction instructions with
  | nil => rfl
  | cons a l ih =>
    unfold Minifier._find_files at ih ⊢
    rw [List.flatMap_cons, List.flatMap_cons, h a.1, ih]

/-- Claim C9: the full task set is materialized from the initial file
system before any execution.  First conjunct: the whole run depends on
the globber only through its expansion against the initial file system,
so a file written during the run can never enter the task set through
glob expansion.  Second conjunct: on success the log lines are exactly
one per resolved task path, in task order. -/
theorem minify_materializes_tasks (M : ExtTransforms) (globber globber' : Globber)
    (fs : FS) (instructions : List (String × Settings)) :
    ((∀ pat, globber fs pat = globber' fs pat) →
      Minifier.minify M globber fs instructions =
        Minifier.minify M globber' fs instructions) ∧
    (∀ fs' log, Minifier.minify M globber fs instructions = .ok (fs', log) →
      log.map LogLine.path =
        (buildTasks (Minifier._find_files M globber fs instructions)).map fun t => t.1) := by
  constructor
  · intro h
    unfold Minifier.minify
    rw [find_files_glob_congr M globber globber' fs instructions h]
  · intro fs' log h
    have hrun := runTasks_ok_paths _ fs [] fs' log h
    simpa using hrun

/-- Witness for claim C9: globProbe inspects the output file a.min.css
(present only after the run) and yet the run equals the one under glob0;
the successful log covers exactly the resolved task path. -/
theorem minify_materializes_tasks_witness :
    (Minifier.minify M0 globProbe fs0 [("*", [])] =
      Minifier.minify M0 glob0 fs0 [("*", [])]) ∧
    ([LogLine.processed "a.css" "a.min.css" 1 2 (percentTimes10 1 2)].map LogLine.path =
      (buildTasks (Minifier._find_files M0 glob0 fs0 [("*", [])])).map fun t => t.1) :=
  ⟨(minify_materializes_tasks M0 globProbe glob0 fs0 [("*", [])]).1 fun _ => rfl,
    (minify_materializes_tasks M0 glob0 glob0 fs0 [("*", [])]).2
      (fsWrite fs0 "a.min.css" "Cx")
      [LogLine.processed "a.css" "a.min.css" 1 2 (percentTimes10 1 2)] rfl⟩
